import Mathlib

/-!
Shallow embedding of the portsqan scheduler core (crates/server/src/lib.rs,
crates/server/src/net.rs, crates/libportsqan/src/lib.rs).

Machine integers (u16, usize) are modelled as `Nat`; the places where the
source's u16 arithmetic can panic in a checked build (underflow in
`AddressRange::len`, overflow in `len`/`nth`) are made explicit through the
`Except Unit` result type, `.error ()` standing for a panic.  Socket I/O is
abstracted by an oracle `Nat → event` giving the outcome of each attempt's
system calls.  Channels are modelled by returning the list of outputs a call
emits; the supervisor's two output paths (async callback, sync ack channel)
are kept separate exactly as in the source.
-/

namespace Portsqan

instance {ε α : Type _} [DecidableEq ε] [DecidableEq α] : DecidableEq (Except ε α) := fun x y =>
  match x, y with
  | .ok a, .ok b =>
    if h : a = b then isTrue (by rw [h]) else isFalse (fun hh => h (Except.ok.inj hh))
  | .error a, .error b =>
    if h : a = b then isTrue (by rw [h]) else isFalse (fun hh => h (Except.error.inj hh))
  | .ok _, .error _ => isFalse (fun hh => Except.noConfusion hh)
  | .error _, .ok _ => isFalse (fun hh => Except.noConfusion hh)

/-- Protocol, from crates/server/src/lib.rs. -/
inductive Protocol where
  | Tcp
  | Udp
deriving Repr, DecidableEq

/-- AddressRange, from crates/server/src/lib.rs (fields host, protocol, from, to;
`from` is a Lean keyword so the fields are named `from_` and `to_`). -/
structure AddressRange where
  host : String
  protocol : Protocol
  from_ : Nat
  to_ : Nat
deriving Repr, DecidableEq

/-- `AddressRange::len`: `(self.to - self.from + 1) as usize`, u16 arithmetic.
In a checked build `to - from` panics when `to < from`, and the `+ 1` panics
when `to - from = 65535`; both are `.error ()`. -/
def AddressRange.len (r : AddressRange) : Except Unit Nat :=
  if r.to_ < r.from_ then .error ()
  else if 65536 ≤ r.to_ - r.from_ + 1 then .error ()
  else .ok (r.to_ - r.from_ + 1)

/-- `AddressRange::nth`: `self.from + index as u16`; the `as u16` cast truncates
mod 65536 and the u16 addition panics on overflow in a checked build. -/
def AddressRange.nth (r : AddressRange) (index : Nat) : Except Unit Nat :=
  if 65536 ≤ r.from_ + index % 65536 then .error ()
  else .ok (r.from_ + index % 65536)

/-- Port, from crates/server/src/lib.rs. -/
structure Port where
  protocol : Protocol
  number : Nat
deriving Repr, DecidableEq

/-- PortState, from crates/server/src/lib.rs. -/
inductive PortState where
  | Open
  | Closed
  | Unreachable
deriving Repr, DecidableEq

abbrev Host := String

abbrev Address := Host × Port

/-- ScannerConfig, from crates/server/src/lib.rs (the field `attemps` keeps the
source's spelling). -/
structure ScannerConfig where
  thread_count : Nat
  stale : Bool
  tcp_timeout : Nat
  udp_timeout : Nat
  attemps : Nat
deriving Repr, DecidableEq

/-- `ScannerConfig::default`. -/
def ScannerConfig.default : ScannerConfig :=
  { attemps := 1, thread_count := 1, stale := true, tcp_timeout := 500, udp_timeout := 500 }

/-- ScanQueue, from crates/server/src/lib.rs. -/
structure ScanQueue where
  address_index : Nat
  ranges : List AddressRange
deriving Repr, DecidableEq

/-- `ScanQueue::new`. -/
def ScanQueue.new : ScanQueue := { address_index := 0, ranges := [] }

/-- The body of `ScanQueue::pop`, structurally recursive on the range list:
if the head range still has an element at the cursor, yield it and advance the
cursor; otherwise drop the head, reset the cursor to zero and continue; on an
empty list yield nothing. -/
def ScanQueue.popAux : Nat → List AddressRange → Except Unit (Option Address × ScanQueue)
  | idx, [] => .ok (none, ⟨idx, []⟩)
  | idx, r :: rest =>
    match r.len with
    | .error e => .error e
    | .ok l =>
      if idx < l then
        match r.nth idx with
        | .error e => .error e
        | .ok number => .ok (some (r.host, ⟨r.protocol, number⟩), ⟨idx + 1, r :: rest⟩)
      else ScanQueue.popAux 0 rest

/-- `ScanQueue::pop`. -/
def ScanQueue.pop (q : ScanQueue) : Except Unit (Option Address × ScanQueue) :=
  ScanQueue.popAux q.address_index q.ranges

/-- `ScanQueue::push`. -/
def ScanQueue.push (q : ScanQueue) (address_range : AddressRange) : ScanQueue :=
  { q with ranges := q.ranges ++ [address_range] }

/-- `ScanQueue::len` (number of ranges). -/
def ScanQueue.len (q : ScanQueue) : Nat := q.ranges.length

/-- `ScanQueue::clear`: empties the range list and resets the cursor. -/
def ScanQueue.clear (_q : ScanQueue) : ScanQueue := { address_index := 0, ranges := [] }

/-! ## Probe primitives (crates/server/src/net.rs)

Each attempt's socket-level outcome is supplied by an oracle indexed by the
attempt number. -/

/-- Outcome of one TCP attempt's system calls: the connection succeeded, the OS
reported "connection refused", or any other failure (timeout, unreachable
network, address parse/DNS failure). -/
inductive TcpNetEvent where
  | connected
  | refused
  | otherErr
deriving Repr, DecidableEq

/-- `try_tcp`: address parse failure and every error other than
ConnectionRefused give `None`; success gives `Some(true)`; refusal
`Some(false)`. -/
def try_tcp (_host : String) (_number : Nat) (_timeout : Nat) (e : TcpNetEvent) : Option Bool :=
  match e with
  | .connected => some true
  | .refused => some false
  | .otherErr => none

/-- The `for _ in 0..attemps` loop of `scan_tcp`: `rsl` is overwritten each
iteration and returned early only when it is `Some(true)`. -/
def scanTcpGo (host : String) (number : Nat) (timeout : Nat) (env : Nat → TcpNetEvent) :
    Nat → Nat → Option Bool → Option Bool
  | _, 0, rsl => rsl
  | i, n + 1, _ =>
    let rsl := try_tcp host number timeout (env i)
    if rsl = some true then rsl else scanTcpGo host number timeout env (i + 1) n rsl

/-- `scan_tcp`. -/
def scan_tcp (host : String) (number : Nat) (timeout : Nat) (env : Nat → TcpNetEvent)
    (attemps : Nat) : Option Bool :=
  scanTcpGo host number timeout env 0 attemps none

/-- Outcome of one UDP attempt's system calls: binding the local socket failed,
the zero-byte send failed, a reply datagram was received, or the read timed out
or errored. -/
inductive UdpNetEvent where
  | bindFail
  | sendFail
  | reply
  | noReply
deriving Repr, DecidableEq

/-- `try_udp`: `UdpSocket::bind("127.0.0.1:0").unwrap()` panics on failure
(`.error ()`); a failed send returns `None`; `recv` Ok gives `Some(true)` and
`recv` Err (timeout or read error) gives `Some(false)`. -/
def try_udp (_host : String) (_number : Nat) (_timeout : Nat) (e : UdpNetEvent) :
    Except Unit (Option Bool) :=
  match e with
  | .bindFail => .error ()
  | .sendFail => .ok none
  | .reply => .ok (some true)
  | .noReply => .ok (some false)

/-- The `for _ in 0..attemps` loop of `scan_udp`. -/
def scanUdpGo (host : String) (number : Nat) (timeout : Nat) (env : Nat → UdpNetEvent) :
    Nat → Nat → Option Bool → Except Unit (Option Bool)
  | _, 0, rsl => .ok rsl
  | i, n + 1, _ =>
    match try_udp host number timeout (env i) with
    | .error e => .error e
    | .ok rsl => if rsl = some true then .ok rsl else scanUdpGo host number timeout env (i + 1) n rsl

/-- `scan_udp`. -/
def scan_udp (host : String) (number : Nat) (timeout : Nat) (env : Nat → UdpNetEvent)
    (attemps : Nat) : Except Unit (Option Bool) :=
  scanUdpGo host number timeout env 0 attemps none

/-! ## Supervisor (crates/server/src/lib.rs)

The supervisor state keeps the fields of `ScanMaster` that live outside the
channels: the worker handle list, the scan queue, the configuration cell, the
scanner state and the id counter.  A worker handle keeps the fields that the
supervisor reads and writes (stale flag, id, state); the instruction channel
and the join handle are realized by the event semantics.  A call returns the
state it leaves behind together with the outputs it emitted; `.error ()`
stands for a panic (`unwrap`/checked arithmetic). -/

/-- WorkerState, from crates/server/src/lib.rs. -/
inductive WorkerState where
  | Term
  | Working
  | Idle
deriving Repr, DecidableEq

/-- ScannerState, from crates/server/src/lib.rs. -/
inductive ScannerState where
  | Ending
  | Terminated
  | Stop
  | Running
deriving Repr, DecidableEq

/-- WorkerHandle, from crates/server/src/lib.rs (channel and join handle
omitted: the model's events stand for the messages they carry). -/
structure WorkerHandle where
  stale : Bool
  id : Nat
  state : WorkerState
deriving Repr, DecidableEq

instance : Inhabited WorkerHandle := ⟨⟨false, 0, .Idle⟩⟩

/-- `WorkerHandle::is_idle`. -/
def WorkerHandle.is_idle (w : WorkerHandle) : Bool :=
  match w.state with
  | .Idle => true
  | _ => false

/-- `WorkerHandle::is_term`. -/
def WorkerHandle.is_term (w : WorkerHandle) : Bool :=
  match w.state with
  | .Term => true
  | _ => false

/-- Input, from crates/server/src/lib.rs (the constructor `Attmpts` keeps the
source's spelling). -/
inductive Input where
  | Stop
  | Cont
  | End
  | TcpRange (host : String) (from_ : Nat) (to_ : Nat)
  | UdpRange (host : String) (from_ : Nat) (to_ : Nat)
  | Threads (count : Nat)
  | Stale (stale : Bool)
  | Cancel
  | NOP
  | Ping
  | Attmpts (count : Nat)
  | TcpTimeout (milis : Nat)
  | UdpTimeout (milis : Nat)
deriving Repr, DecidableEq

/-- Output, from crates/server/src/lib.rs: `TcpScan`/`UdpScan`/`Idle` go to the
async callback, `Ok` to the synchronous acknowledgement channel. -/
inductive Output where
  | TcpScan (host : String) (number : Nat) (state : PortState)
  | UdpScan (host : String) (number : Nat) (state : PortState)
  | Idle
  | Ok
deriving Repr, DecidableEq

/-- The payload of a `WorkerMessage` carrying `Message::Scan(host, port, state)`. -/
structure WorkerMessage where
  worker_id : Nat
  host : Host
  port : Port
  st : PortState
deriving Repr, DecidableEq

/-- ScanMaster, from crates/server/src/lib.rs (channel endpoints and the output
callback omitted). -/
structure ScanMaster where
  workers : List WorkerHandle
  ranges : ScanQueue
  config : ScannerConfig
  state : ScannerState
  id_counter : Nat
deriving Repr, DecidableEq

/-- `ScanMaster::new`: no workers, empty queue, default configuration, Running,
id counter 0. -/
def ScanMaster.new : ScanMaster :=
  { workers := [], ranges := ScanQueue.new, config := ScannerConfig.default,
    state := .Running, id_counter := 0 }

/-- The loop of `ScanMaster::threads_clean`: drop every handle in state Term. -/
def threadsClean (ws : List WorkerHandle) : List WorkerHandle :=
  ws.filter (fun wh => !wh.is_term)

/-- The loop of `ScanMaster::try_close`: walk the handles in order and move the
first up-to-`count` Idle ones to Term (the Term instruction and the join are
absorbed by the event semantics); non-idle handles are skipped without
consuming the budget. -/
def tryCloseAux : Nat → List WorkerHandle → List WorkerHandle
  | _, [] => []
  | 0, ws => ws
  | count + 1, w :: rest =>
    if w.is_idle then { w with state := .Term } :: tryCloseAux count rest
    else w :: tryCloseAux (count + 1) rest

/-- `ScanMaster::try_close`. -/
def ScanMaster.try_close (s : ScanMaster) (count : Nat) : ScanMaster :=
  { s with workers := threadsClean (tryCloseAux count s.workers) }

/-- `ScanMaster::try_terminate`. -/
def ScanMaster.try_terminate (s : ScanMaster) : ScanMaster :=
  let s := s.try_close s.workers.length
  if s.workers.length = 0 then { s with state := .Terminated } else s

/-- `ScanMaster::spawn`: increment the id counter and append a fresh Idle,
non-stale handle carrying the new id. -/
def ScanMaster.spawn (s : ScanMaster) : ScanMaster :=
  { s with id_counter := s.id_counter + 1,
           workers := s.workers ++ [{ stale := false, id := s.id_counter + 1, state := .Idle }] }

/-- The `for _ in 0..diff` spawn loop of `ScanMaster::thread_count_control`. -/
def ScanMaster.spawnN (s : ScanMaster) : Nat → ScanMaster
  | 0 => s
  | n + 1 => (s.spawn).spawnN n

/-- The loop of `ScanMaster::assign_work`: for each Idle handle pop a target;
on a target, send it (absorbed by the event semantics) and mark the handle
Working; when the queue yields nothing, break. -/
def assignAux : ScanQueue → List WorkerHandle → Except Unit (ScanQueue × List WorkerHandle)
  | q, [] => .ok (q, [])
  | q, w :: rest =>
    if w.is_idle then
      match q.pop with
      | .error e => .error e
      | .ok (none, q') => .ok (q', w :: rest)
      | .ok (some _, q') =>
        match assignAux q' rest with
        | .error e => .error e
        | .ok (q2, ws2) => .ok (q2, { w with state := .Working } :: ws2)
    else
      match assignAux q rest with
      | .error e => .error e
      | .ok (q2, ws2) => .ok (q2, w :: ws2)

/-- `ScanMaster::assign_work` (early return when the state is not Running). -/
def ScanMaster.assign_work (s : ScanMaster) : Except Unit ScanMaster :=
  if s.state = .Running then
    match assignAux s.ranges s.workers with
    | .error e => .error e
    | .ok (q, ws) => .ok { s with ranges := q, workers := ws }
  else .ok s

/-- `ScanMaster::thread_count_control`. -/
def ScanMaster.thread_count_control (s : ScanMaster) : Except Unit ScanMaster :=
  let expected_count := s.config.thread_count
  if s.workers.length < expected_count then
    (s.spawnN (expected_count - s.workers.length)).assign_work
  else if expected_count < s.workers.length then
    .ok (s.try_close (s.workers.length - expected_count))
  else .ok s

/-- The condition of `ScanMaster::check_idle`: every handle Idle, state
Running, and the queue's range list empty. -/
def ScanMaster.check_idle (s : ScanMaster) : Bool :=
  decide (s.workers.countP (fun wh => wh.is_idle) = s.workers.length) &&
  decide (s.state = .Running) && decide (s.ranges.len = 0)

/-- `ScanMaster::stale_all`. -/
def ScanMaster.stale_all (s : ScanMaster) : ScanMaster :=
  { s with workers := s.workers.map (fun wh => { wh with stale := true }) }

/-- The binary search loop behind `binary_search_by_key(&worker_id, |wh| wh.id)`
on the interval `[lo, hi)`.  The width `hi - lo` strictly shrinks at every
step, so a fuel of at least `hi - lo` makes the recursion structural without
changing the result. -/
def bsearchGo (ws : List WorkerHandle) (target : Nat) : Nat → Nat → Nat → Option Nat
  | 0, _, _ => none
  | n + 1, lo, hi =>
    if lo < hi then
      let mid := (lo + hi) / 2
      let key := (ws.getD mid default).id
      if key < target then bsearchGo ws target n (mid + 1) hi
      else if target < key then bsearchGo ws target n lo mid
      else some mid
    else none

/-- `workers.binary_search_by_key(&worker_id, |wh| wh.id)`, `none` when the id
is absent (the source then panics through `unwrap`). -/
def bsearch (ws : List WorkerHandle) (target : Nat) : Option Nat :=
  bsearchGo ws target ws.length 0 ws.length

/-- Steps 1-2 of message handling: set the located handle's state to Idle and
clear its stale flag. -/
def ScanMaster.mark_idle (s : ScanMaster) (idx : Nat) : ScanMaster :=
  let w := s.workers.getD idx default
  { s with workers := s.workers.set idx { w with state := .Idle, stale := false } }

/-- The async output a scan result produces when it is not suppressed. -/
def scanOutput (m : WorkerMessage) : Output :=
  match m.port.protocol with
  | .Tcp => .TcpScan m.host m.port.number m.st
  | .Udp => .UdpScan m.host m.port.number m.st

/-- `ScanMaster::handle_message` on `Message::Scan`: locate the worker by
binary search (`unwrap` panics when the id is absent), set it Idle, read and
clear its stale flag, emit the scan output unless (stale ∧ config.stale), then
in Running reconcile threads, dispatch and check idleness, and in Ending try
to terminate.  Returns the new state and the async outputs in emission
order. -/
def ScanMaster.handle_message (s : ScanMaster) (m : WorkerMessage) :
    Except Unit (ScanMaster × List Output) :=
  match bsearch s.workers m.worker_id with
  | none => .error ()
  | some idx =>
    let stale := (s.workers.getD idx default).stale
    let s := s.mark_idle idx
    let out1 : List Output := if !stale || !s.config.stale then [scanOutput m] else []
    if s.state = .Running then
      match s.thread_count_control with
      | .error e => .error e
      | .ok s =>
        match s.assign_work with
        | .error e => .error e
        | .ok s =>
          let out2 : List Output := if s.check_idle then [.Idle] else []
          .ok (s, out1 ++ out2)
    else if s.state = .Ending then
      .ok (s.try_terminate, out1)
    else
      .ok (s, out1)

/-- The `match input` body of `ScanMaster::handle_input`: the effect of one
command on the supervisor state. -/
def ScanMaster.apply_input (s : ScanMaster) (input : Input) : Except Unit ScanMaster :=
  match input with
  | .End =>
    let s := { s with state := ScannerState.Ending }
    let s := s.stale_all
    .ok s.try_terminate
  | .Ping => .ok s
  | .Attmpts count => .ok { s with config := { s.config with attemps := count } }
  | .TcpTimeout milis => .ok { s with config := { s.config with tcp_timeout := milis } }
  | .UdpTimeout milis => .ok { s with config := { s.config with udp_timeout := milis } }
  | .Cancel =>
    let s := s.stale_all
    .ok { s with ranges := s.ranges.clear }
  | .Stale stale => .ok { s with config := { s.config with stale := stale } }
  | .TcpRange host from_ to_ =>
    ({ s with ranges := s.ranges.push ⟨host, .Tcp, from_, to_⟩ }).assign_work
  | .UdpRange host from_ to_ =>
    ({ s with ranges := s.ranges.push ⟨host, .Udp, from_, to_⟩ }).assign_work
  | .Stop => .ok (if s.state = .Running then { s with state := .Stop } else s)
  | .Cont =>
    (if s.state = .Stop then { s with state := .Running } else s).assign_work
  | .Threads count =>
    ({ s with config := { s.config with thread_count := count } }).thread_count_control
  | .NOP => .ok s

/-- `ScanMaster::handle_input`: commands are ignored outright (no state change,
no acknowledgement) in Ending and Terminated; otherwise the command's effect is
applied and a single `Ok` is sent on the sync channel.  Returns the new state
and the sync outputs (command handling emits nothing on the async callback). -/
def ScanMaster.handle_input (s : ScanMaster) (input : Input) :
    Except Unit (ScanMaster × List Output) :=
  if s.state = .Ending ∨ s.state = .Terminated then .ok (s, [])
  else
    match s.apply_input input with
    | .error e => .error e
    | .ok s' => .ok (s', [Output.Ok])

/-- `Scanner::new` runs `thread_count_control` once before entering the listen
loop; with the default configuration this spawns the first worker. -/
def initMaster : Except Unit ScanMaster := ScanMaster.new.thread_count_control

/-- The supervisor state at the top of the listen loop of a freshly built
scanner: one Idle worker with id 1. -/
def initListen : ScanMaster :=
  { workers := [{ stale := false, id := 1, state := .Idle }],
    ranges := ScanQueue.new, config := ScannerConfig.default,
    state := .Running, id_counter := 1 }

/-- Fold a command sequence through `handle_input`, discarding outputs. -/
def runCmds : ScanMaster → List Input → Except Unit ScanMaster
  | s, [] => .ok s
  | s, i :: is =>
    match s.handle_input i with
    | .error e => .error e
    | .ok (s', _) => runCmds s' is

/-- The states the supervisor's listen loop can be in: the loop starts at the
state `Scanner::new` hands it and steps by handling a command or a worker
message; a scan-result message can only come from an existing worker that was
sent an instruction (state Working), and the loop only runs while the state is
not Terminated. -/
inductive Reaches : ScanMaster → Prop where
  | init : ∀ s0, initMaster = .ok s0 → Reaches s0
  | cmd : ∀ s input s' out, Reaches s → s.state ≠ .Terminated →
      s.handle_input input = .ok (s', out) → Reaches s'
  | msg : ∀ s m s' out, Reaches s → s.state ≠ .Terminated →
      (∃ w ∈ s.workers, w.id = m.worker_id ∧ w.state = .Working) →
      s.handle_message m = .ok (s', out) → Reaches s'

/-! ## The scan queue (claims C5, C7) -/

/-- C5: for every scan queue, `pop` yields the next (host, protocol, port)
target of the head range and advances the cursor; when the cursor reaches the
head range's length, the head range is dropped and the cursor is reset to zero
before continuing; `clear` empties the queue and resets the cursor; and after
`clear`, every subsequent `pop` yields nothing until a new `push`. -/
theorem scan_queue_ops :
    (∀ (q : ScanQueue) (r : AddressRange) (rest : List AddressRange) (l num : Nat),
      q.ranges = r :: rest → r.len = .ok l → q.address_index < l →
      r.nth q.address_index = .ok num →
      q.pop = .ok (some (r.host, ⟨r.protocol, num⟩), ⟨q.address_index + 1, r :: rest⟩)) ∧
    (∀ (q : ScanQueue) (r : AddressRange) (rest : List AddressRange) (l : Nat),
      q.ranges = r :: rest → r.len = .ok l → l ≤ q.address_index →
      q.pop = ScanQueue.pop ⟨0, rest⟩) ∧
    (∀ q : ScanQueue, q.clear = ⟨0, []⟩) ∧
    (∀ q : ScanQueue, q.clear.pop = .ok (none, q.clear)) := by
  refine ⟨?_, ?_, fun _ => rfl, fun _ => rfl⟩
  · intro q r rest l num hq hlen hidx hnth
    unfold ScanQueue.pop
    rw [hq]
    simp [ScanQueue.popAux, hlen, hidx, hnth]
  · intro q r rest l hq hlen hle
    unfold ScanQueue.pop
    rw [hq]
    simp [ScanQueue.popAux, hlen, Nat.not_lt.mpr hle]

/-- Witness for `scan_queue_ops` on a concrete queue holding the range
("h", TCP, 1, 2). -/
theorem scan_queue_ops_witness :
    (ScanQueue.pop ⟨0, [⟨"h", Protocol.Tcp, 1, 2⟩]⟩ =
      .ok (some ("h", ⟨Protocol.Tcp, 1⟩), ⟨1, [⟨"h", Protocol.Tcp, 1, 2⟩]⟩)) ∧
    (ScanQueue.pop ⟨2, [⟨"h", Protocol.Tcp, 1, 2⟩]⟩ = ScanQueue.pop ⟨0, []⟩) ∧
    (ScanQueue.clear ⟨7, [⟨"h", Protocol.Tcp, 1, 2⟩]⟩ = ⟨0, []⟩) ∧
    ((ScanQueue.clear ⟨7, [⟨"h", Protocol.Tcp, 1, 2⟩]⟩).pop =
      .ok (none, ScanQueue.clear ⟨7, [⟨"h", Protocol.Tcp, 1, 2⟩]⟩)) :=
  ⟨scan_queue_ops.1 ⟨0, [⟨"h", Protocol.Tcp, 1, 2⟩]⟩ _ _ 2 1 rfl rfl (by decide) rfl,
   scan_queue_ops.2.1 ⟨2, [⟨"h", Protocol.Tcp, 1, 2⟩]⟩ _ _ 2 rfl rfl (by decide),
   scan_queue_ops.2.2.1 _,
   scan_queue_ops.2.2.2 _⟩

/-- C7: the supervisor accepts a TcpRange command whose `from` exceeds its
`to` without any validation; the enqueued range violates `from ≤ to`, and the
u16 subtraction in `AddressRange::len` underflows (`.error ()`, a panic in a
checked build) when the range is measured during `pop` — which here happens
already inside the dispatch triggered by the command itself. -/
theorem range_underflow_panic :
    (3 : Nat) < 5 ∧
    AddressRange.len ⟨"h", Protocol.Tcp, 5, 3⟩ = .error () ∧
    ScanQueue.pop ⟨0, [⟨"h", Protocol.Tcp, 5, 3⟩]⟩ = .error () ∧
    initListen.handle_input (.TcpRange "h" 5 3) = .error () :=
  ⟨by decide, rfl, rfl, rfl⟩

/-! ## Probe primitives (claims C3, C6) -/

theorem try_tcp_ne_true (host : String) (number timeout : Nat) {e : TcpNetEvent}
    (h : e ≠ .connected) : try_tcp host number timeout e ≠ some true := by
  cases e <;> simp [try_tcp] at h ⊢

theorem scanTcpGo_step (host : String) (number timeout : Nat) (env : Nat → TcpNetEvent)
    (i n : Nat) (rsl : Option Bool)
    (h : try_tcp host number timeout (env i) ≠ some true) :
    scanTcpGo host number timeout env i (n + 1) rsl =
      scanTcpGo host number timeout env (i + 1) n (try_tcp host number timeout (env i)) := by
  simp only [scanTcpGo]
  rw [if_neg h]

theorem scanTcpGo_last (host : String) (number timeout : Nat) (env : Nat → TcpNetEvent) :
    ∀ (n i : Nat) (rsl : Option Bool),
      (∀ k, k ≤ n → env (i + k) ≠ .connected) →
      scanTcpGo host number timeout env i (n + 1) rsl =
        try_tcp host number timeout (env (i + n)) := by
  intro n
  induction n with
  | zero =>
    intro i rsl henv
    have h0 : env i ≠ .connected := henv 0 (by omega)
    rw [scanTcpGo_step host number timeout env i 0 rsl (try_tcp_ne_true host number timeout h0)]
    rfl
  | succ m ih =>
    intro i rsl henv
    have h0 : env i ≠ .connected := henv 0 (by omega)
    have hsh : ∀ k, k ≤ m → env (i + 1 + k) ≠ .connected := by
      intro k hk
      have h := henv (k + 1) (by omega)
      have e : i + (k + 1) = i + 1 + k := by omega
      rwa [e] at h
    have e2 : i + (m + 1) = i + 1 + m := by omega
    rw [e2, scanTcpGo_step host number timeout env i (m + 1) rsl
      (try_tcp_ne_true host number timeout h0)]
    exact ih (i + 1) _ hsh

theorem scanTcpGo_success (host : String) (number timeout : Nat) (env : Nat → TcpNetEvent) :
    ∀ (j n i : Nat) (rsl : Option Bool), j < n → env (i + j) = .connected →
      (∀ k, k < j → env (i + k) ≠ .connected) →
      scanTcpGo host number timeout env i n rsl = some true := by
  intro j
  induction j with
  | zero =>
    intro n i rsl hn hrep _
    have hrep0 : env i = .connected := hrep
    cases n with
    | zero => omega
    | succ m => simp [scanTcpGo, hrep0, try_tcp]
  | succ j ih =>
    intro n i rsl hn hrep hpre
    cases n with
    | zero => omega
    | succ m =>
      have h0 : env i ≠ .connected := hpre 0 (by omega)
      have hrep' : env (i + 1 + j) = .connected := by
        have e : i + (j + 1) = i + 1 + j := by omega
        rwa [e] at hrep
      have hpre' : ∀ k, k < j → env (i + 1 + k) ≠ .connected := by
        intro k hk
        have h := hpre (k + 1) (by omega)
        have e : i + (k + 1) = i + 1 + k := by omega
        rwa [e] at h
      rw [scanTcpGo_step host number timeout env i m rsl (try_tcp_ne_true host number timeout h0)]
      exact ih m (i + 1) _ (by omega) hrep' hpre'

/-- C6: the TCP probe runs up to `attemps` iterations (the timeout is what
each iteration's connect call is bounded by); a successful connection maps to
Open (`some true`) and short-circuits the loop, connection-refused maps to
Closed (`some false`), any other error — timeout, unreachable network,
DNS/parse failure — maps to Unreachable (`none`), and when no iteration
connects, the last iteration's outcome is returned. -/
theorem tcp_probe_behavior (host : String) (number timeout : Nat) (env : Nat → TcpNetEvent) :
    try_tcp host number timeout .connected = some true ∧
    try_tcp host number timeout .refused = some false ∧
    try_tcp host number timeout .otherErr = none ∧
    (∀ n i, i < n → env i = .connected → (∀ j, j < i → env j ≠ .connected) →
      scan_tcp host number timeout env n = some true) ∧
    (∀ n, 1 ≤ n → (∀ i, i < n → env i ≠ .connected) →
      scan_tcp host number timeout env n = try_tcp host number timeout (env (n - 1))) := by
  refine ⟨rfl, rfl, rfl, ?_, ?_⟩
  · intro n i hi hc hpre
    have : env (0 + i) = .connected := by rwa [Nat.zero_add]
    exact scanTcpGo_success host number timeout env i n 0 none hi this
      (fun k hk => by rw [Nat.zero_add]; exact hpre k (by omega))
  · intro n hn henv
    cases n with
    | zero => omega
    | succ m =>
      have := scanTcpGo_last host number timeout env m 0 none
        (fun k hk => by rw [Nat.zero_add]; exact henv k (by omega))
      rw [Nat.zero_add] at this
      simpa [scan_tcp] using this

/-- Witness for `tcp_probe_behavior`: a refused first attempt followed by a
successful second attempt yields Open; two refused attempts yield the last
attempt's Closed. -/
theorem tcp_probe_behavior_witness :
    scan_tcp "h" 1 500 (fun i => if i = 0 then .refused else .connected) 2 = some true ∧
    scan_tcp "h" 1 500 (fun _ => .refused) 2 = some false := by
  constructor
  · exact (tcp_probe_behavior "h" 1 500 _).2.2.2.1 2 1 (by omega) (by decide)
      (fun j hj => by interval_cases j <;> decide)
  · exact ((tcp_probe_behavior "h" 1 500 _).2.2.2.2 2 (by omega)
      (fun i _ => by simp)).trans rfl

/-- The tri-state value a UDP attempt's events produce when the call does not
panic (bindFail's entry is never used). -/
def try_udp_val : UdpNetEvent → Option Bool
  | .bindFail => none
  | .sendFail => none
  | .reply => some true
  | .noReply => some false

/-- A UDP attempt that neither replies nor fails to bind yields an `ok` value
other than `some true`. -/
theorem try_udp_mid (host : String) (number timeout : Nat) {e : UdpNetEvent}
    (h1 : e ≠ .reply) (h2 : e ≠ .bindFail) :
    try_udp host number timeout e = .ok (try_udp_val e) ∧ try_udp_val e ≠ some true := by
  cases e <;> simp [try_udp, try_udp_val] at h1 h2 ⊢

theorem scanUdpGo_step (host : String) (number timeout : Nat) (env : Nat → UdpNetEvent)
    (i n : Nat) (rsl r : Option Bool)
    (h1 : try_udp host number timeout (env i) = .ok r) (h2 : r ≠ some true) :
    scanUdpGo host number timeout env i (n + 1) rsl =
      scanUdpGo host number timeout env (i + 1) n r := by
  simp only [scanUdpGo, h1]
  rw [if_neg h2]

theorem scanUdpGo_last (host : String) (number timeout : Nat) (env : Nat → UdpNetEvent) :
    ∀ (n i : Nat) (rsl : Option Bool),
      (∀ k, k ≤ n → env (i + k) ≠ .reply ∧ env (i + k) ≠ .bindFail) →
      scanUdpGo host number timeout env i (n + 1) rsl =
        try_udp host number timeout (env (i + n)) := by
  intro n
  induction n with
  | zero =>
    intro i rsl henv
    have h0 : env i ≠ .reply ∧ env i ≠ .bindFail := henv 0 (by omega)
    obtain ⟨he, hne⟩ := try_udp_mid host number timeout h0.1 h0.2
    show scanUdpGo host number timeout env i (0 + 1) rsl = try_udp host number timeout (env i)
    rw [scanUdpGo_step host number timeout env i 0 rsl _ he hne, he]
    rfl
  | succ m ih =>
    intro i rsl henv
    have h0 : env i ≠ .reply ∧ env i ≠ .bindFail := henv 0 (by omega)
    have hsh : ∀ k, k ≤ m → env (i + 1 + k) ≠ .reply ∧ env (i + 1 + k) ≠ .bindFail := by
      intro k hk
      have h := henv (k + 1) (by omega)
      have e : i + (k + 1) = i + 1 + k := by omega
      rwa [e] at h
    have e2 : i + (m + 1) = i + 1 + m := by omega
    obtain ⟨he, hne⟩ := try_udp_mid host number timeout h0.1 h0.2
    rw [e2, scanUdpGo_step host number timeout env i (m + 1) rsl _ he hne]
    exact ih (i + 1) _ hsh

theorem scanUdpGo_success (host : String) (number timeout : Nat) (env : Nat → UdpNetEvent) :
    ∀ (j n i : Nat) (rsl : Option Bool), j < n → env (i + j) = .reply →
      (∀ k, k < j → env (i + k) ≠ .reply ∧ env (i + k) ≠ .bindFail) →
      scanUdpGo host number timeout env i n rsl = .ok (some true) := by
  intro j
  induction j with
  | zero =>
    intro n i rsl hn hrep _
    have hrep0 : env i = .reply := hrep
    cases n with
    | zero => omega
    | succ m => simp [scanUdpGo, hrep0, try_udp]
  | succ j ih =>
    intro n i rsl hn hrep hpre
    cases n with
    | zero => omega
    | succ m =>
      have h0 : env i ≠ .reply ∧ env i ≠ .bindFail := hpre 0 (by omega)
      have hrep' : env (i + 1 + j) = .reply := by
        have e : i + (j + 1) = i + 1 + j := by omega
        rwa [e] at hrep
      have hpre' : ∀ k, k < j → env (i + 1 + k) ≠ .reply ∧ env (i + 1 + k) ≠ .bindFail := by
        intro k hk
        have h := hpre (k + 1) (by omega)
        have e : i + (k + 1) = i + 1 + k := by omega
        rwa [e] at h
      obtain ⟨he, hne⟩ := try_udp_mid host number timeout h0.1 h0.2
      rw [scanUdpGo_step host number timeout env i m rsl _ he hne]
      exact ih m (i + 1) _ (by omega) hrep' hpre'

theorem scanUdpGo_bind (host : String) (number timeout : Nat) (env : Nat → UdpNetEvent) :
    ∀ (j n i : Nat) (rsl : Option Bool), j < n → env (i + j) = .bindFail →
      (∀ k, k < j → env (i + k) ≠ .reply ∧ env (i + k) ≠ .bindFail) →
      scanUdpGo host number timeout env i n rsl = .error () := by
  intro j
  induction j with
  | zero =>
    intro n i rsl hn hrep _
    have hrep0 : env i = .bindFail := hrep
    cases n with
    | zero => omega
    | succ m => simp [scanUdpGo, hrep0, try_udp]
  | succ j ih =>
    intro n i rsl hn hrep hpre
    cases n with
    | zero => omega
    | succ m =>
      have h0 : env i ≠ .reply ∧ env i ≠ .bindFail := hpre 0 (by omega)
      have hrep' : env (i + 1 + j) = .bindFail := by
        have e : i + (j + 1) = i + 1 + j := by omega
        rwa [e] at hrep
      have hpre' : ∀ k, k < j → env (i + 1 + k) ≠ .reply ∧ env (i + 1 + k) ≠ .bindFail := by
        intro k hk
        have h := hpre (k + 1) (by omega)
        have e : i + (k + 1) = i + 1 + k := by omega
        rwa [e] at h
      obtain ⟨he, hne⟩ := try_udp_mid host number timeout h0.1 h0.2
      rw [scanUdpGo_step host number timeout env i m rsl _ he hne]
      exact ih m (i + 1) _ (by omega) hrep' hpre'

/-- C3 counterexample: a first attempt whose send fails (per the claim an
Unreachable that should short-circuit the retries) does not short-circuit —
with a second attempt that gets a reply the probe returns Open, not
Unreachable; and an attempt whose bind fails panics (`.error ()`) instead of
returning Unreachable (`.ok none`). -/
theorem udp_probe_counterexample :
    scan_udp "h" 1 500 (fun i => if i = 0 then .sendFail else .reply) 2 = .ok (some true) ∧
    (Except.ok (some true) : Except Unit (Option Bool)) ≠ .ok none ∧
    scan_udp "h" 1 500 (fun _ => .bindFail) 1 = .error () ∧
    (Except.error () : Except Unit (Option Bool)) ≠ .ok none :=
  ⟨rfl, by decide, rfl, by decide⟩

/-- C3 amended: the UDP probe maps a received reply to Open (`some true`),
short-circuiting the retry loop; a read timeout or read error to Closed
(`some false`); a failed send to Unreachable (`none`) — but an Unreachable
outcome does not short-circuit: the loop retries and returns the last
attempt's outcome — and a bind failure panics (`unwrap`) instead of returning
Unreachable. -/
theorem udp_probe_behavior (host : String) (number timeout : Nat) (env : Nat → UdpNetEvent) :
    try_udp host number timeout .reply = .ok (some true) ∧
    try_udp host number timeout .noReply = .ok (some false) ∧
    try_udp host number timeout .sendFail = .ok none ∧
    try_udp host number timeout .bindFail = .error () ∧
    (∀ n i, i < n → env i = .reply → (∀ j, j < i → env j ≠ .reply ∧ env j ≠ .bindFail) →
      scan_udp host number timeout env n = .ok (some true)) ∧
    (∀ n i, i < n → env i = .bindFail → (∀ j, j < i → env j ≠ .reply ∧ env j ≠ .bindFail) →
      scan_udp host number timeout env n = .error ()) ∧
    (∀ n, 1 ≤ n → (∀ i, i < n → env i ≠ .reply ∧ env i ≠ .bindFail) →
      scan_udp host number timeout env n = try_udp host number timeout (env (n - 1))) := by
  refine ⟨rfl, rfl, rfl, rfl, ?_, ?_, ?_⟩
  · intro n i hi hc hpre
    have hc' : env (0 + i) = .reply := by rwa [Nat.zero_add]
    exact scanUdpGo_success host number timeout env i n 0 none hi hc'
      (fun k hk => by rw [Nat.zero_add]; exact hpre k (by omega))
  · intro n i hi hc hpre
    have hc' : env (0 + i) = .bindFail := by rwa [Nat.zero_add]
    exact scanUdpGo_bind host number timeout env i n 0 none hi hc'
      (fun k hk => by rw [Nat.zero_add]; exact hpre k (by omega))
  · intro n hn henv
    cases n with
    | zero => omega
    | succ m =>
      have := scanUdpGo_last host number timeout env m 0 none
        (fun k hk => by rw [Nat.zero_add]; exact henv k (by omega))
      rw [Nat.zero_add] at this
      simpa [scan_udp] using this

/-! ## Supervisor basics: preservation lemmas shared by the claims -/

theorem spawnN_state (n : Nat) : ∀ s : ScanMaster, (s.spawnN n).state = s.state := by
  induction n with
  | zero => intro s; rfl
  | succ m ih => intro s; exact ih s.spawn

theorem spawnN_config (n : Nat) : ∀ s : ScanMaster, (s.spawnN n).config = s.config := by
  induction n with
  | zero => intro s; rfl
  | succ m ih => intro s; exact ih s.spawn

theorem assign_work_state (s s2 : ScanMaster) (h : s.assign_work = .ok s2) :
    s2.state = s.state := by
  unfold ScanMaster.assign_work at h
  split at h
  · split at h
    · simp at h
    · simp only [Except.ok.injEq] at h
      rw [← h]
  · simp only [Except.ok.injEq] at h
    rw [← h]

theorem assign_work_config (s s2 : ScanMaster) (h : s.assign_work = .ok s2) :
    s2.config = s.config := by
  unfold ScanMaster.assign_work at h
  split at h
  · split at h
    · simp at h
    · simp only [Except.ok.injEq] at h
      rw [← h]
  · simp only [Except.ok.injEq] at h
    rw [← h]

theorem tcc_state (s s2 : ScanMaster) (h : s.thread_count_control = .ok s2) :
    s2.state = s.state := by
  unfold ScanMaster.thread_count_control at h
  simp only [] at h
  split at h
  · rw [assign_work_state _ _ h, spawnN_state]
  · split at h
    · simp only [Except.ok.injEq] at h
      rw [← h]
      rfl
    · simp only [Except.ok.injEq] at h
      rw [← h]

theorem tcc_config (s s2 : ScanMaster) (h : s.thread_count_control = .ok s2) :
    s2.config = s.config := by
  unfold ScanMaster.thread_count_control at h
  simp only [] at h
  split at h
  · rw [assign_work_config _ _ h, spawnN_config]
  · split at h
    · simp only [Except.ok.injEq] at h
      rw [← h]
      rfl
    · simp only [Except.ok.injEq] at h
      rw [← h]

theorem try_terminate_state (s : ScanMaster) :
    (s.try_terminate).state = .Terminated ∨ (s.try_terminate).state = s.state := by
  unfold ScanMaster.try_terminate
  simp only []
  split
  · exact Or.inl rfl
  · exact Or.inr rfl

theorem scanOutput_ne_idle (m : WorkerMessage) : scanOutput m ≠ Output.Idle := by
  cases hp : m.port.protocol <;> simp [scanOutput, hp]

theorem check_idle_iff (s : ScanMaster) :
    s.check_idle = true ↔
      (s.state = .Running ∧ (∀ w ∈ s.workers, w.is_idle = true) ∧ s.ranges.len = 0) := by
  unfold ScanMaster.check_idle
  simp only [Bool.and_eq_true, decide_eq_true_eq, List.countP_eq_length]
  tauto

/-! ## Command acknowledgement (claim C1) -/

/-- The supervisor state reached from a fresh scanner by `TcpRange("h",1,1)`
then `End` while the single worker's probe is still in flight. -/
def c1mid : ScanMaster :=
  { workers := [{ stale := true, id := 1, state := .Working }],
    ranges := ⟨1, [⟨"h", Protocol.Tcp, 1, 1⟩]⟩,
    config := ScannerConfig.default, state := .Ending, id_counter := 1 }

/-- C1 counterexample: in the reachable Ending state `c1mid` (fresh scanner,
`TcpRange` dispatched to the only worker, then `End` with the probe in
flight), handling a further command (`Ping`) concludes without sending any
acknowledgement: the sync output list is empty, not `[Ok]`. -/
theorem ack_in_ending_counterexample :
    runCmds initListen [.TcpRange "h" 1 1, .End] = .ok c1mid ∧
    c1mid.state = .Ending ∧
    c1mid.handle_input .Ping = .ok (c1mid, []) ∧
    Output.Ok ∉ ([] : List Output) :=
  ⟨rfl, rfl, rfl, by simp⟩

/-- C1 amended: handling a command concludes by sending the synchronous `Ok`
acknowledgement exactly when the supervisor state is not Ending and not
Terminated; in Ending and Terminated the command is ignored and nothing is
sent on the acknowledgement channel. -/
theorem ack_iff_not_ending (s : ScanMaster) (input : Input) (s' : ScanMaster)
    (out : List Output) (h : s.handle_input input = .ok (s', out)) :
    (¬ (s.state = .Ending ∨ s.state = .Terminated) → out = [Output.Ok]) ∧
    ((s.state = .Ending ∨ s.state = .Terminated) → out = []) := by
  unfold ScanMaster.handle_input at h
  split at h
  · next hg =>
    refine ⟨fun hng => absurd hg hng, fun _ => ?_⟩
    simp only [Except.ok.injEq, Prod.mk.injEq] at h
    exact h.2.symm
  · next hg =>
    refine ⟨fun _ => ?_, fun hgg => absurd hgg hg⟩
    split at h
    · simp at h
    · simp only [Except.ok.injEq, Prod.mk.injEq] at h
      exact h.2.symm

/-- Witness for `ack_iff_not_ending` on a fresh scanner handling `Ping`. -/
theorem ack_iff_not_ending_witness :
    (¬ (initListen.state = .Ending ∨ initListen.state = .Terminated) →
      [Output.Ok] = [Output.Ok]) ∧
    ((initListen.state = .Ending ∨ initListen.state = .Terminated) →
      [Output.Ok] = ([] : List Output)) :=
  ack_iff_not_ending initListen .Ping initListen [Output.Ok] rfl

/-! ## The Idle signal (claim C2) -/

/-- The supervisor state reached from a fresh scanner by `TcpRange("h",1,1)`
(dispatched to the only worker) then `Threads(0)` (the shrink is deferred
because the worker is busy). -/
def c2mid : ScanMaster :=
  { workers := [{ stale := false, id := 1, state := .Working }],
    ranges := ⟨1, [⟨"h", Protocol.Tcp, 1, 1⟩]⟩,
    config := { ScannerConfig.default with thread_count := 0 },
    state := .Running, id_counter := 1 }

/-- The state after the worker's reply is processed in `c2mid`: the worker is
closed (thread count 0), leaving no workers and a fully-consumed head range
still counted by `len()`. -/
def c2post : ScanMaster :=
  { workers := [],
    ranges := ⟨1, [⟨"h", Protocol.Tcp, 1, 1⟩]⟩,
    config := { ScannerConfig.default with thread_count := 0 },
    state := .Running, id_counter := 1 }

/-- C2 counterexample: processing the worker's reply in the reachable state
`c2mid` leaves the supervisor Running with every worker (vacuously) Idle and a
queue that yields no further target — yet no `Idle` is emitted, because
`check_idle` tests the count of ranges (`len() == 0`), which is 1 here. -/
theorem idle_signal_counterexample :
    runCmds initListen [.TcpRange "h" 1 1, .Threads 0] = .ok c2mid ∧
    c2mid.workers = [{ stale := false, id := 1, state := .Working }] ∧
    c2mid.handle_message ⟨1, "h", ⟨Protocol.Tcp, 1⟩, .Open⟩ =
      .ok (c2post, [Output.TcpScan "h" 1 .Open]) ∧
    c2post.state = .Running ∧
    c2post.workers = [] ∧
    c2post.ranges.pop = .ok (none, ⟨0, []⟩) ∧
    Output.Idle ∉ [Output.TcpScan "h" 1 PortState.Open] :=
  ⟨rfl, rfl, rfl, rfl, rfl, rfl, by simp⟩

/-- C2 amended: processing a worker message emits `Idle` iff, at that instant,
the state is Running, every worker in the list is Idle, and the queue's range
list is empty (`len() = 0`) — rather than "the queue yields no further
target", which can differ from `len() = 0` when the worker list is empty and
a fully-consumed head range has not yet been removed. -/
theorem idle_signal_iff (s : ScanMaster) (m : WorkerMessage) (s' : ScanMaster)
    (out : List Output) (h : s.handle_message m = .ok (s', out)) :
    Output.Idle ∈ out ↔
      (s'.state = .Running ∧ (∀ w ∈ s'.workers, w.is_idle = true) ∧ s'.ranges.len = 0) := by
  unfold ScanMaster.handle_message at h
  cases hb : bsearch s.workers m.worker_id with
  | none => rw [hb] at h; simp at h
  | some idx =>
    rw [hb] at h
    simp only at h
    split at h
    · next hrun =>
      split at h
      · simp at h
      · next s2 htcc =>
        split at h
        · simp at h
        · next s3 haw =>
          simp only [Except.ok.injEq, Prod.mk.injEq] at h
          obtain ⟨rfl, rfl⟩ := h
          rw [← check_idle_iff]
          constructor
          · intro hin
            rcases List.mem_append.mp hin with h1 | h2
            · exfalso
              revert h1
              split
              · intro h1
                rcases List.mem_singleton.mp h1 with h
                exact scanOutput_ne_idle m h.symm
              · intro h1
                simp at h1
            · revert h2
              split
              · intro _
                assumption
              · intro h2
                simp at h2
          · intro hci
            refine List.mem_append.mpr (Or.inr ?_)
            rw [if_pos hci]
            exact List.mem_singleton.mpr rfl
    · next hnrun =>
      split at h
      · next hend =>
        simp only [Except.ok.injEq, Prod.mk.injEq] at h
        obtain ⟨hs', hout⟩ := h
        constructor
        · intro hin
          exfalso
          rw [← hout] at hin
          revert hin
          split
          · intro h1
            rcases List.mem_singleton.mp h1 with hh
            exact scanOutput_ne_idle m hh.symm
          · intro h1
            simp at h1
        · intro hc
          exfalso
          have hc1 : s'.state = .Running := hc.1
          rcases try_terminate_state (ScanMaster.mark_idle s idx) with ht | ht
          · rw [hs'] at ht
            rw [ht] at hc1
            exact ScannerState.noConfusion hc1
          · rw [hs'] at ht
            rw [ht, hend] at hc1
            exact ScannerState.noConfusion hc1
      · next hnend =>
        simp only [Except.ok.injEq, Prod.mk.injEq] at h
        obtain ⟨hs', hout⟩ := h
        constructor
        · intro hin
          exfalso
          rw [← hout] at hin
          revert hin
          split
          · intro h1
            rcases List.mem_singleton.mp h1 with hh
            exact scanOutput_ne_idle m hh.symm
          · intro h1
            simp at h1
        · intro hc
          exact absurd (hs' ▸ hc.1) hnrun

/-- Witness for `idle_signal_iff` on a fresh scanner processing a reply from
its (already idle) worker: the queue is empty, so `Idle` is emitted. -/
theorem idle_signal_iff_witness :
    Output.Idle ∈ [Output.TcpScan "h" 80 PortState.Open, Output.Idle] ↔
      (initListen.state = .Running ∧ (∀ w ∈ initListen.workers, w.is_idle = true) ∧
        initListen.ranges.len = 0) :=
  idle_signal_iff initListen ⟨1, "h", ⟨Protocol.Tcp, 80⟩, .Open⟩ initListen
    [Output.TcpScan "h" 80 PortState.Open, Output.Idle] rfl

/-! ## Stale-result suppression (claim C4) -/

theorem getD_set_self {α : Type _} :
    ∀ (l : List α) (i : Nat) (a d : α), i < l.length → (l.set i a).getD i d = a := by
  intro l
  induction l with
  | nil => intro i a d h; simp at h
  | cons x xs ih =>
    intro i a d h
    cases i with
    | zero => rfl
    | succ j => exact ih j a d (by simpa using h)

theorem bsearchGo_sound (ws : List WorkerHandle) (t : Nat) :
    ∀ (fuel lo hi i : Nat), hi ≤ ws.length → bsearchGo ws t fuel lo hi = some i →
      i < ws.length ∧ (ws.getD i default).id = t := by
  intro fuel
  induction fuel with
  | zero => intro lo hi i _ h; simp [bsearchGo] at h
  | succ n ih =>
    intro lo hi i hhi h
    unfold bsearchGo at h
    simp only [] at h
    split at h
    · next hlt =>
      split at h
      · exact ih _ _ _ hhi h
      · split at h
        · exact ih _ _ _ (by omega) h
        · next h1 h2 =>
          obtain rfl := Option.some.inj h
          refine ⟨by omega, by omega⟩
    · simp at h

/-- The shape of the async outputs of `handle_message`: the (possibly
suppressed) scan output followed by at most an `Idle`. -/
theorem handle_message_out (s : ScanMaster) (m : WorkerMessage) (idx : Nat)
    (s' : ScanMaster) (out : List Output)
    (hb : bsearch s.workers m.worker_id = some idx)
    (h : s.handle_message m = .ok (s', out)) :
    ∃ out2 : List Output, (∀ x ∈ out2, x = Output.Idle) ∧
      out = (if !(s.workers.getD idx default).stale || !s.config.stale
             then [scanOutput m] else []) ++ out2 := by
  unfold ScanMaster.handle_message at h
  rw [hb] at h
  simp only [] at h
  split at h
  · split at h
    · simp at h
    · next s2 htcc =>
      split at h
      · simp at h
      · next s3 haw =>
        simp only [Except.ok.injEq, Prod.mk.injEq] at h
        obtain ⟨rfl, rfl⟩ := h
        refine ⟨(if s3.check_idle = true then [Output.Idle] else []), ?_, rfl⟩
        intro x hx
        revert hx
        split
        · intro hx; simpa using hx
        · intro hx; simp at hx
  · split at h
    · simp only [Except.ok.injEq, Prod.mk.injEq] at h
      obtain ⟨_, rfl⟩ := h
      refine ⟨[], by simp, ?_⟩
      rw [List.append_nil]
      rfl
    · simp only [Except.ok.injEq, Prod.mk.injEq] at h
      obtain ⟨_, rfl⟩ := h
      refine ⟨[], by simp, ?_⟩
      rw [List.append_nil]
      rfl

/-- C4: a processed scan result is suppressed (no TcpScan/UdpScan output) iff
the replying worker's stale flag was set and the `stale` configuration option
is true at reply time; and the handler records the located worker as Idle with
its stale flag cleared. -/
theorem stale_suppression_iff (s : ScanMaster) (m : WorkerMessage) (idx : Nat)
    (s' : ScanMaster) (out : List Output)
    (hb : bsearch s.workers m.worker_id = some idx)
    (h : s.handle_message m = .ok (s', out)) :
    (scanOutput m ∈ out ↔
      ¬ ((s.workers.getD idx default).stale = true ∧ s.config.stale = true)) ∧
    (s.mark_idle idx).workers.getD idx default =
      { s.workers.getD idx default with state := WorkerState.Idle, stale := false } := by
  have hlen : idx < s.workers.length := by
    unfold bsearch at hb
    exact (bsearchGo_sound s.workers m.worker_id s.workers.length 0 s.workers.length idx
      (Nat.le_refl _) hb).1
  constructor
  · obtain ⟨out2, hout2, rfl⟩ := handle_message_out s m idx s' out hb h
    constructor
    · intro hin
      rcases List.mem_append.mp hin with h1 | h2
      · revert h1
        split
        · next hc =>
          intro _ hand
          simp only [Bool.or_eq_true, Bool.not_eq_true'] at hc
          rcases hc with hc | hc
          · rw [hc] at hand
            exact Bool.noConfusion hand.1
          · rw [hc] at hand
            exact Bool.noConfusion hand.2
        · intro h1
          simp at h1
      · exact absurd (hout2 _ h2) (scanOutput_ne_idle m)
    · intro hns
      refine List.mem_append.mpr (Or.inl ?_)
      have hc : (!(s.workers.getD idx default).stale || !s.config.stale) = true := by
        revert hns
        cases (s.workers.getD idx default).stale <;> cases s.config.stale <;> simp
      rw [if_pos hc]
      exact List.mem_singleton.mpr rfl
  · unfold ScanMaster.mark_idle
    simp only []
    exact getD_set_self _ _ _ _ hlen

/-- Witness for `stale_suppression_iff` on a fresh scanner processing a reply
from its worker (stale flag clear, so the result is emitted). -/
theorem stale_suppression_iff_witness :
    (scanOutput ⟨1, "h", ⟨Protocol.Tcp, 80⟩, .Open⟩ ∈
        [Output.TcpScan "h" 80 PortState.Open, Output.Idle] ↔
      ¬ ((initListen.workers.getD 0 default).stale = true ∧
          initListen.config.stale = true)) ∧
    (initListen.mark_idle 0).workers.getD 0 default =
      { initListen.workers.getD 0 default with state := WorkerState.Idle, stale := false } :=
  stale_suppression_iff initListen ⟨1, "h", ⟨Protocol.Tcp, 80⟩, .Open⟩ 0 initListen
    [Output.TcpScan "h" 80 PortState.Open, Output.Idle] rfl rfl

/-- Witness for `udp_probe_behavior`: no-reply on both of two attempts yields
the last attempt's Closed; a reply on the first of two attempts yields Open. -/
theorem udp_probe_behavior_witness :
    scan_udp "h" 1 500 (fun _ => .noReply) 2 = .ok (some false) ∧
    scan_udp "h" 1 500 (fun _ => .reply) 2 = .ok (some true) := by
  constructor
  · exact ((udp_probe_behavior "h" 1 500 _).2.2.2.2.2.2 2 (by omega)
      (fun i _ => by simp)).trans rfl
  · exact (udp_probe_behavior "h" 1 500 _).2.2.2.2.1 2 0 (by omega) rfl
      (fun j hj => by omega)

/-! ## Worker-list invariants (claims C8, C9) -/

/-- The ids of a worker handle list, in order. -/
def wids (ws : List WorkerHandle) : List Nat := ws.map (fun w => w.id)

/-- No handle in the list is in state Term (between calls, Term handles have
always been removed by `threads_clean`). -/
def NoTermW (ws : List WorkerHandle) : Prop := ∀ w ∈ ws, w.state ≠ WorkerState.Term

/-- The ids are strictly increasing along the list. -/
def SortedW (ws : List WorkerHandle) : Prop := List.Pairwise (· < ·) (wids ws)

/-- Every id in the list is at most `c` (the supervisor's id counter). -/
def BoundW (ws : List WorkerHandle) (c : Nat) : Prop := ∀ x ∈ wids ws, x ≤ c

/-- The supervisor's worker-list invariant: ids strictly sorted, bounded by the
id counter, and no Term handle at rest. -/
def WInv (s : ScanMaster) : Prop :=
  SortedW s.workers ∧ BoundW s.workers s.id_counter ∧ NoTermW s.workers

theorem wids_length (ws : List WorkerHandle) : (wids ws).length = ws.length := by
  simp [wids]

theorem not_is_term_iff (w : WorkerHandle) : (!w.is_term) = true ↔ w.state ≠ WorkerState.Term := by
  cases hs : w.state <;> simp [WorkerHandle.is_term, hs]

theorem is_idle_iff (w : WorkerHandle) : w.is_idle = true ↔ w.state = WorkerState.Idle := by
  cases hs : w.state <;> simp [WorkerHandle.is_idle, hs]

theorem tryCloseAux_wids : ∀ (c : Nat) (ws : List WorkerHandle),
    wids (tryCloseAux c ws) = wids ws := by
  intro c ws
  induction ws generalizing c with
  | nil => cases c <;> rfl
  | cons w rest ih =>
    cases c with
    | zero => rfl
    | succ c' =>
      have ih1 := ih c'
      have ih2 := ih (c' + 1)
      simp only [wids] at ih1 ih2
      unfold tryCloseAux
      split
      · simp only [wids, List.map_cons, ih1]
      · simp only [wids, List.map_cons, ih2]

theorem tryCloseAux_states : ∀ (c : Nat) (ws : List WorkerHandle) (w : WorkerHandle),
    w ∈ tryCloseAux c ws → w ∈ ws ∨ w.state = WorkerState.Term := by
  intro c ws
  induction ws generalizing c with
  | nil => intro w hw; cases c <;> simp [tryCloseAux] at hw
  | cons x rest ih =>
    intro w hw
    cases c with
    | zero => exact Or.inl hw
    | succ c' =>
      unfold tryCloseAux at hw
      split at hw
      · rcases List.mem_cons.mp hw with h1 | h1
        · exact Or.inr (by rw [h1])
        · rcases ih c' w h1 with h2 | h2
          · exact Or.inl (List.mem_cons_of_mem _ h2)
          · exact Or.inr h2
      · rcases List.mem_cons.mp hw with h1 | h1
        · exact Or.inl (by rw [h1]; exact List.mem_cons_self _ _)
        · rcases ih (c' + 1) w h1 with h2 | h2
          · exact Or.inl (List.mem_cons_of_mem _ h2)
          · exact Or.inr h2

theorem threadsClean_sublist (ws : List WorkerHandle) : List.Sublist (threadsClean ws) ws :=
  List.filter_sublist ws

theorem threadsClean_noterm (ws : List WorkerHandle) : NoTermW (threadsClean ws) := by
  intro w hw
  unfold threadsClean at hw
  have hp := List.of_mem_filter hw
  exact (not_is_term_iff w).mp hp

theorem threadsClean_eq_self (ws : List WorkerHandle) (h : NoTermW ws) :
    threadsClean ws = ws := by
  unfold threadsClean
  exact List.filter_eq_self.mpr (fun w hw => (not_is_term_iff w).mpr (h w hw))

theorem sortedW_sublist {ws1 ws2 : List WorkerHandle} (h : List.Sublist ws1 ws2)
    (hs : SortedW ws2) : SortedW ws1 :=
  List.Pairwise.sublist (h.map _) hs

theorem boundW_sublist {ws1 ws2 : List WorkerHandle} {c : Nat} (h : List.Sublist ws1 ws2)
    (hb : BoundW ws2 c) : BoundW ws1 c :=
  fun x hx => hb x ((h.map _).subset hx)

theorem sortedW_of_wids_eq {ws1 ws2 : List WorkerHandle} (h : wids ws1 = wids ws2)
    (hs : SortedW ws2) : SortedW ws1 := by
  unfold SortedW
  rw [h]
  exact hs

theorem boundW_of_wids_eq {ws1 ws2 : List WorkerHandle} {c : Nat} (h : wids ws1 = wids ws2)
    (hb : BoundW ws2 c) : BoundW ws1 c := by
  unfold BoundW
  rw [h]
  exact hb

theorem try_close_winv (s : ScanMaster) (c : Nat) (hi : WInv s) : WInv (s.try_close c) := by
  obtain ⟨hs, hb, _⟩ := hi
  have hsub := threadsClean_sublist (tryCloseAux c s.workers)
  refine ⟨?_, ?_, ?_⟩
  · exact sortedW_sublist hsub (sortedW_of_wids_eq (tryCloseAux_wids c s.workers) hs)
  · exact boundW_sublist hsub (boundW_of_wids_eq (tryCloseAux_wids c s.workers) hb)
  · exact threadsClean_noterm _

theorem try_terminate_winv (s : ScanMaster) (hi : WInv s) : WInv s.try_terminate := by
  unfold ScanMaster.try_terminate
  simp only []
  split
  · exact try_close_winv s _ hi
  · exact try_close_winv s _ hi

theorem spawn_wids (s : ScanMaster) :
    wids (s.spawn).workers = wids s.workers ++ [s.id_counter + 1] := by
  simp [ScanMaster.spawn, wids]

theorem spawn_winv (s : ScanMaster) (hi : WInv s) : WInv s.spawn := by
  obtain ⟨hs, hb, hn⟩ := hi
  refine ⟨?_, ?_, ?_⟩
  · unfold SortedW
    rw [spawn_wids]
    rw [List.pairwise_append]
    refine ⟨hs, List.pairwise_singleton _ _, ?_⟩
    intro a ha b hbm
    rcases List.mem_singleton.mp hbm with rfl
    exact Nat.lt_succ_of_le (hb a ha)
  · unfold BoundW
    rw [spawn_wids]
    intro x hx
    rcases List.mem_append.mp hx with h1 | h1
    · exact Nat.le_succ_of_le (hb x h1)
    · rcases List.mem_singleton.mp h1 with rfl
      exact Nat.le_refl _
  · intro w hw
    rcases List.mem_append.mp hw with h1 | h1
    · exact hn w h1
    · rcases List.mem_singleton.mp h1 with rfl
      simp

theorem spawnN_winv : ∀ (k : Nat) (s : ScanMaster), WInv s → WInv (s.spawnN k) := by
  intro k
  induction k with
  | zero => intro s hi; exact hi
  | succ m ih => intro s hi; exact ih s.spawn (spawn_winv s hi)

theorem spawnN_len : ∀ (k : Nat) (s : ScanMaster),
    (s.spawnN k).workers.length = s.workers.length + k := by
  intro k
  induction k with
  | zero => intro s; rfl
  | succ m ih =>
    intro s
    have := ih s.spawn
    rw [ScanMaster.spawnN, this]
    simp [ScanMaster.spawn]
    omega

theorem assignAux_ok : ∀ (q : ScanQueue) (ws : List WorkerHandle) (q' : ScanQueue)
    (ws' : List WorkerHandle), assignAux q ws = .ok (q', ws') →
    wids ws' = wids ws ∧ (NoTermW ws → NoTermW ws') := by
  intro q ws
  induction ws generalizing q with
  | nil =>
    intro q' ws' h
    simp only [assignAux, Except.ok.injEq, Prod.mk.injEq] at h
    obtain ⟨rfl, rfl⟩ := h
    exact ⟨rfl, fun hn => hn⟩
  | cons w rest ih =>
    intro q' ws' h
    unfold assignAux at h
    split at h
    · cases hp : q.pop with
      | error e => rw [hp] at h; simp at h
      | ok pr =>
        obtain ⟨a?, q1⟩ := pr
        cases a? with
        | none =>
          rw [hp] at h
          simp only [Except.ok.injEq, Prod.mk.injEq] at h
          obtain ⟨rfl, rfl⟩ := h
          exact ⟨rfl, fun hn => hn⟩
        | some a =>
          rw [hp] at h
          simp only [] at h
          cases hrec : assignAux q1 rest with
          | error e => rw [hrec] at h; simp at h
          | ok pr2 =>
            obtain ⟨q2, ws2⟩ := pr2
            rw [hrec] at h
            simp only [Except.ok.injEq, Prod.mk.injEq] at h
            obtain ⟨rfl, rfl⟩ := h
            obtain ⟨hids, hnt⟩ := ih q1 q2 ws2 hrec
            constructor
            · simp only [wids, List.map_cons]
              simp only [wids] at hids
              rw [hids]
            · intro hn x hx
              rcases List.mem_cons.mp hx with h1 | h1
              · rw [h1]; simp
              · exact hnt (fun y hy => hn y (List.mem_cons_of_mem _ hy)) x h1
    · cases hrec : assignAux q rest with
      | error e => rw [hrec] at h; simp at h
      | ok pr2 =>
        obtain ⟨q2, ws2⟩ := pr2
        rw [hrec] at h
        simp only [Except.ok.injEq, Prod.mk.injEq] at h
        obtain ⟨rfl, rfl⟩ := h
        obtain ⟨hids, hnt⟩ := ih q q2 ws2 hrec
        constructor
        · simp only [wids, List.map_cons]
          simp only [wids] at hids
          rw [hids]
        · intro hn x hx
          rcases List.mem_cons.mp hx with h1 | h1
          · rw [h1]; exact hn w (List.mem_cons_self _ _)
          · exact hnt (fun y hy => hn y (List.mem_cons_of_mem _ hy)) x h1

theorem assign_work_shape (s s2 : ScanMaster) (h : s.assign_work = .ok s2) :
    wids s2.workers = wids s.workers ∧ (NoTermW s.workers → NoTermW s2.workers) ∧
    s2.id_counter = s.id_counter := by
  unfold ScanMaster.assign_work at h
  split at h
  · cases ha : assignAux s.ranges s.workers with
    | error e => rw [ha] at h; simp at h
    | ok pr =>
      obtain ⟨q1, ws1⟩ := pr
      rw [ha] at h
      simp only [Except.ok.injEq] at h
      obtain rfl := h.symm
      obtain ⟨hids, hnt⟩ := assignAux_ok s.ranges s.workers q1 ws1 ha
      exact ⟨hids, hnt, rfl⟩
  · simp only [Except.ok.injEq] at h
    obtain rfl := h.symm
    exact ⟨rfl, fun hn => hn, rfl⟩

theorem assign_work_winv (s s2 : ScanMaster) (h : s.assign_work = .ok s2) (hi : WInv s) :
    WInv s2 := by
  obtain ⟨hids, hnt, hc⟩ := assign_work_shape s s2 h
  obtain ⟨h1, h2, h3⟩ := hi
  refine ⟨sortedW_of_wids_eq hids h1, ?_, hnt h3⟩
  unfold BoundW
  rw [hc]
  exact boundW_of_wids_eq hids h2

theorem assign_work_len (s s2 : ScanMaster) (h : s.assign_work = .ok s2) :
    s2.workers.length = s.workers.length := by
  have := (assign_work_shape s s2 h).1
  rw [← wids_length s2.workers, ← wids_length s.workers, this]

theorem tcc_winv (s s2 : ScanMaster) (h : s.thread_count_control = .ok s2) (hi : WInv s) :
    WInv s2 := by
  unfold ScanMaster.thread_count_control at h
  simp only [] at h
  split at h
  · exact assign_work_winv _ _ h (spawnN_winv _ s hi)
  · split at h
    · simp only [Except.ok.injEq] at h
      obtain rfl := h.symm
      exact try_close_winv s _ hi
    · simp only [Except.ok.injEq] at h
      obtain rfl := h.symm
      exact hi

theorem stale_all_wids (s : ScanMaster) : wids (s.stale_all).workers = wids s.workers := by
  simp [ScanMaster.stale_all, wids, List.map_map]

theorem stale_all_winv (s : ScanMaster) (hi : WInv s) : WInv s.stale_all := by
  obtain ⟨h1, h2, h3⟩ := hi
  refine ⟨sortedW_of_wids_eq (stale_all_wids s) h1, boundW_of_wids_eq (stale_all_wids s) h2, ?_⟩
  intro w hw
  unfold ScanMaster.stale_all at hw
  simp only [List.mem_map] at hw
  obtain ⟨w0, hw0, rfl⟩ := hw
  exact h3 w0 hw0

theorem wids_set_same : ∀ (ws : List WorkerHandle) (idx : Nat) (w' : WorkerHandle),
    w'.id = (ws.getD idx default).id → wids (ws.set idx w') = wids ws := by
  intro ws
  induction ws with
  | nil => intro idx w' _; rfl
  | cons x xs ih =>
    intro idx w' h
    cases idx with
    | zero =>
      have h' : w'.id = x.id := h
      simp [wids, h']
    | succ j =>
      have h' : w'.id = (xs.getD j default).id := h
      simp only [List.set, wids, List.map_cons]
      rw [show List.map (fun w => w.id) (xs.set j w') = List.map (fun w => w.id) xs from ih j w' h']

theorem mark_idle_winv (s : ScanMaster) (idx : Nat) (hi : WInv s) : WInv (s.mark_idle idx) := by
  obtain ⟨h1, h2, h3⟩ := hi
  have hw : wids ((s.mark_idle idx).workers) = wids s.workers :=
    wids_set_same s.workers idx _ rfl
  refine ⟨sortedW_of_wids_eq hw h1, boundW_of_wids_eq hw h2, ?_⟩
  intro w hwm
  unfold ScanMaster.mark_idle at hwm
  simp only [] at hwm
  rcases List.mem_or_eq_of_mem_set hwm with h4 | h4
  · exact h3 w h4
  · rw [h4]; simp

theorem apply_input_winv (s : ScanMaster) (input : Input) (s2 : ScanMaster)
    (h : s.apply_input input = .ok s2) (hi : WInv s) : WInv s2 := by
  cases input with
  | End =>
    simp only [ScanMaster.apply_input, Except.ok.injEq] at h
    obtain rfl := h.symm
    exact try_terminate_winv _ (stale_all_winv _ hi)
  | Ping =>
    simp only [ScanMaster.apply_input, Except.ok.injEq] at h
    obtain rfl := h.symm
    exact hi
  | NOP =>
    simp only [ScanMaster.apply_input, Except.ok.injEq] at h
    obtain rfl := h.symm
    exact hi
  | Attmpts count =>
    simp only [ScanMaster.apply_input, Except.ok.injEq] at h
    obtain rfl := h.symm
    exact hi
  | TcpTimeout milis =>
    simp only [ScanMaster.apply_input, Except.ok.injEq] at h
    obtain rfl := h.symm
    exact hi
  | UdpTimeout milis =>
    simp only [ScanMaster.apply_input, Except.ok.injEq] at h
    obtain rfl := h.symm
    exact hi
  | Stale b =>
    simp only [ScanMaster.apply_input, Except.ok.injEq] at h
    obtain rfl := h.symm
    exact hi
  | Cancel =>
    simp only [ScanMaster.apply_input, Except.ok.injEq] at h
    obtain rfl := h.symm
    exact stale_all_winv _ hi
  | TcpRange host from_ to_ =>
    simp only [ScanMaster.apply_input] at h
    exact assign_work_winv _ _ h hi
  | UdpRange host from_ to_ =>
    simp only [ScanMaster.apply_input] at h
    exact assign_work_winv _ _ h hi
  | Stop =>
    simp only [ScanMaster.apply_input, Except.ok.injEq] at h
    obtain rfl := h.symm
    split <;> exact hi
  | Cont =>
    simp only [ScanMaster.apply_input] at h
    split at h <;> exact assign_work_winv _ _ h hi
  | Threads count =>
    simp only [ScanMaster.apply_input] at h
    exact tcc_winv _ _ h hi

theorem handle_input_winv (s : ScanMaster) (input : Input) (s2 : ScanMaster)
    (out : List Output) (h : s.handle_input input = .ok (s2, out)) (hi : WInv s) : WInv s2 := by
  unfold ScanMaster.handle_input at h
  split at h
  · simp only [Except.ok.injEq, Prod.mk.injEq] at h
    obtain rfl := h.1.symm
    exact hi
  · cases ha : s.apply_input input with
    | error e => rw [ha] at h; simp at h
    | ok s3 =>
      rw [ha] at h
      simp only [Except.ok.injEq, Prod.mk.injEq] at h
      obtain rfl := h.1.symm
      exact apply_input_winv s input s2 ha hi

theorem handle_message_winv (s : ScanMaster) (m : WorkerMessage) (s2 : ScanMaster)
    (out : List Output) (h : s.handle_message m = .ok (s2, out)) (hi : WInv s) : WInv s2 := by
  unfold ScanMaster.handle_message at h
  cases hb : bsearch s.workers m.worker_id with
  | none => rw [hb] at h; simp at h
  | some idx =>
    rw [hb] at h
    simp only [] at h
    have hm : WInv (s.mark_idle idx) := mark_idle_winv s idx hi
    split at h
    · split at h
      · simp at h
      · next s3 htcc =>
        split at h
        · simp at h
        · next s4 haw =>
          simp only [Except.ok.injEq, Prod.mk.injEq] at h
          obtain rfl := h.1.symm
          exact assign_work_winv _ _ haw (tcc_winv _ _ htcc hm)
    · split at h
      · simp only [Except.ok.injEq, Prod.mk.injEq] at h
        obtain rfl := h.1.symm
        exact try_terminate_winv _ hm
      · simp only [Except.ok.injEq, Prod.mk.injEq] at h
        obtain rfl := h.1.symm
        exact hm

theorem initListen_winv : WInv initListen := by
  refine ⟨?_, ?_, ?_⟩
  · unfold SortedW wids initListen
    simp
  · unfold BoundW wids initListen
    simp
  · unfold NoTermW initListen
    simp

theorem reaches_winv (s : ScanMaster) (hr : Reaches s) : WInv s := by
  induction hr with
  | init s0 h0 =>
    have he : initMaster = .ok initListen := rfl
    rw [he] at h0
    obtain rfl := Except.ok.inj h0
    exact initListen_winv
  | cmd s input s' out _ _ hstep ih => exact handle_input_winv s input s' out hstep ih
  | msg s m s' out _ _ _ hstep ih => exact handle_message_winv s m s' out hstep ih

theorem wids_get?_eq (ws : List WorkerHandle) (i : Nat) (h : i < ws.length) :
    (wids ws).get? i = some ((ws.getD i default).id) := by
  unfold wids
  rw [List.get?_map, List.get?_eq_get h, List.getD_eq_get ws default h]
  rfl

theorem sorted_id_lt (ws : List WorkerHandle) (hs : SortedW ws) (i j : Nat)
    (hij : i < j) (hj : j < ws.length) :
    (ws.getD i default).id < (ws.getD j default).id := by
  have hi : i < ws.length := Nat.lt_trans hij hj
  have hi' : i < (wids ws).length := by rw [wids_length]; exact hi
  have hj' : j < (wids ws).length := by rw [wids_length]; exact hj
  have h := (List.pairwise_iff_get.mp hs) ⟨i, hi'⟩ ⟨j, hj'⟩ hij
  have e1 : (wids ws).get ⟨i, hi'⟩ = (ws.getD i default).id := by
    have hq := wids_get?_eq ws i hi
    rw [List.get?_eq_get hi'] at hq
    exact Option.some.inj hq
  have e2 : (wids ws).get ⟨j, hj'⟩ = (ws.getD j default).id := by
    have hq := wids_get?_eq ws j hj
    rw [List.get?_eq_get hj'] at hq
    exact Option.some.inj hq
  rw [e1, e2] at h
  exact h

theorem bsearchGo_correct (ws : List WorkerHandle) (hs : SortedW ws) :
    ∀ (fuel lo hi i : Nat), hi - lo ≤ fuel → hi ≤ ws.length → lo ≤ i → i < hi →
      bsearchGo ws ((ws.getD i default).id) fuel lo hi = some i := by
  intro fuel
  induction fuel with
  | zero => intro lo hi i hf _ hlo hhi; omega
  | succ n ih =>
    intro lo hi i hf hlen hlo hhi
    have hlh : lo < hi := Nat.lt_of_le_of_lt hlo hhi
    unfold bsearchGo
    rw [if_pos hlh]
    simp only []
    rcases Nat.lt_trichotomy ((lo + hi) / 2) i with hmi | hmi | hmi
    · have hk : (ws.getD ((lo + hi) / 2) default).id < (ws.getD i default).id :=
        sorted_id_lt ws hs _ _ hmi (Nat.lt_of_lt_of_le hhi hlen)
      rw [if_pos hk]
      exact ih ((lo + hi) / 2 + 1) hi i (by omega) hlen (by omega) hhi
    · rw [hmi, if_neg (lt_irrefl _), if_neg (lt_irrefl _)]
    · have hk : (ws.getD i default).id < (ws.getD ((lo + hi) / 2) default).id := by
        apply sorted_id_lt ws hs _ _ hmi
        omega
      rw [if_neg (by omega), if_pos hk]
      exact ih lo ((lo + hi) / 2) i (by omega) (by omega) hlo hmi

theorem bsearch_correct (ws : List WorkerHandle) (hs : SortedW ws) (i : Nat)
    (h : i < ws.length) : bsearch ws ((ws.getD i default).id) = some i := by
  unfold bsearch
  exact bsearchGo_correct ws hs ws.length 0 ws.length i (by omega) (Nat.le_refl _)
    (Nat.zero_le _) h

/-- C9: at every reachable point of the supervisor's execution, worker ids are
assigned from the monotonically increasing id counter at spawn (every id in
the list is at most the counter), the worker handle list is sorted in strictly
increasing id order, and the binary search by id performed when handling a
worker message locates exactly the index of each worker in the list. -/
theorem worker_ids_sorted_bsearch (s : ScanMaster) (hr : Reaches s) :
    List.Pairwise (· < ·) (wids s.workers) ∧
    (∀ x ∈ wids s.workers, x ≤ s.id_counter) ∧
    (∀ i, i < s.workers.length →
      bsearch s.workers ((s.workers.getD i default).id) = some i) := by
  obtain ⟨h1, h2, _⟩ := reaches_winv s hr
  exact ⟨h1, h2, fun i hi => bsearch_correct s.workers h1 i hi⟩

/-- Witness for `worker_ids_sorted_bsearch` at the initial listen-loop state. -/
theorem worker_ids_sorted_bsearch_witness :
    List.Pairwise (· < ·) (wids initListen.workers) ∧
    bsearch initListen.workers ((initListen.workers.getD 0 default).id) = some 0 :=
  ⟨(worker_ids_sorted_bsearch initListen (Reaches.init initListen rfl)).1,
   (worker_ids_sorted_bsearch initListen (Reaches.init initListen rfl)).2.2 0 (by decide)⟩

/-- The number of Idle handles in the list. -/
def countIdle (ws : List WorkerHandle) : Nat := ws.countP (fun w => w.is_idle)

theorem tryCloseAux_no_idle : ∀ (c : Nat) (ws : List WorkerHandle),
    (∀ w ∈ ws, ¬ w.is_idle = true) → tryCloseAux c ws = ws := by
  intro c ws
  induction ws generalizing c with
  | nil => intro _; cases c <;> rfl
  | cons w rest ih =>
    intro hno
    cases c with
    | zero => rfl
    | succ c' =>
      unfold tryCloseAux
      rw [if_neg (hno w (List.mem_cons_self _ _)),
        ih (c' + 1) (fun x hx => hno x (List.mem_cons_of_mem _ hx))]

theorem tryClose_count : ∀ (ws : List WorkerHandle) (c : Nat), NoTermW ws →
    (c ≤ countIdle ws → (threadsClean (tryCloseAux c ws)).length = ws.length - c) ∧
    (countIdle ws ≤ c →
      threadsClean (tryCloseAux c ws) = ws.filter (fun w => !w.is_idle)) := by
  intro ws
  induction ws with
  | nil =>
    intro c _
    constructor
    · intro _; cases c <;> simp [tryCloseAux, threadsClean]
    · intro _; cases c <;> simp [tryCloseAux, threadsClean]
  | cons w rest ih =>
    intro c hnt
    have hw : w.state ≠ WorkerState.Term := hnt w (List.mem_cons_self _ _)
    have hrest : NoTermW rest := fun x hx => hnt x (List.mem_cons_of_mem _ hx)
    have hkeep : (!w.is_term) = true := (not_is_term_iff w).mpr hw
    cases c with
    | zero =>
      have haux : tryCloseAux 0 (w :: rest) = w :: rest := rfl
      constructor
      · intro _
        rw [haux, threadsClean_eq_self _ hnt]
        simp
      · intro hc
        have hall := List.countP_eq_zero.mp (Nat.le_zero.mp hc)
        rw [haux, threadsClean_eq_self _ hnt]
        refine (List.filter_eq_self.mpr ?_).symm
        intro a ha
        cases hb : a.is_idle with
        | true => exact absurd hb (hall a ha)
        | false => simp [hb]
    | succ c' =>
      by_cases hidle : w.is_idle = true
      · have haux : tryCloseAux (c' + 1) (w :: rest) =
            { w with state := WorkerState.Term } :: tryCloseAux c' rest := by
          simp only [tryCloseAux]
          rw [if_pos hidle]
        have hclean : threadsClean ({ w with state := WorkerState.Term } :: tryCloseAux c' rest) =
            threadsClean (tryCloseAux c' rest) := by
          unfold threadsClean
          rw [List.filter_cons]
          simp [WorkerHandle.is_term]
        have hci : countIdle (w :: rest) = countIdle rest + 1 := by
          unfold countIdle
          rw [List.countP_cons]
          simp [hidle]
        constructor
        · intro hc
          rw [hci] at hc
          rw [haux, hclean, (ih c' hrest).1 (by omega)]
          simp only [List.length_cons]
          omega
        · intro hc
          rw [hci] at hc
          rw [haux, hclean, (ih c' hrest).2 (by omega), List.filter_cons]
          simp [hidle]
      · have haux : tryCloseAux (c' + 1) (w :: rest) = w :: tryCloseAux (c' + 1) rest := by
          simp only [tryCloseAux]
          rw [if_neg hidle]
        have hclean : threadsClean (w :: tryCloseAux (c' + 1) rest) =
            w :: threadsClean (tryCloseAux (c' + 1) rest) := by
          unfold threadsClean
          rw [List.filter_cons, if_pos hkeep]
        have hci : countIdle (w :: rest) = countIdle rest := by
          unfold countIdle
          rw [List.countP_cons]
          simp [hidle]
        have hcb : countIdle rest ≤ rest.length := List.countP_le_length _
        constructor
        · intro hc
          rw [hci] at hc
          rw [haux, hclean]
          simp only [List.length_cons]
          rw [(ih (c' + 1) hrest).1 hc]
          omega
        · intro hc
          rw [hci] at hc
          rw [haux, hclean, (ih (c' + 1) hrest).2 hc, List.filter_cons]
          have : (!w.is_idle) = true := by
            cases hb : w.is_idle with
            | true => exact absurd hb hidle
            | false => simp [hb]
          rw [if_pos this]

theorem filter_not_idle_length (ws : List WorkerHandle) :
    (ws.filter (fun w => !w.is_idle)).length = ws.length - countIdle ws := by
  induction ws with
  | nil => rfl
  | cons w rest ih =>
    have hcb : countIdle rest ≤ rest.length := List.countP_le_length _
    unfold countIdle at ih hcb ⊢
    rw [List.filter_cons, List.countP_cons]
    cases hb : w.is_idle with
    | true =>
      simp only [hb, Bool.not_true, List.length_cons]
      rw [if_neg (by simp), if_pos trivial, ih]
      omega
    | false =>
      simp only [hb, Bool.not_false, List.length_cons]
      rw [if_pos trivial, if_neg (by simp)]
      simp only [List.length_cons]
      rw [ih]
      omega

theorem try_close_cases (s : ScanMaster) (c : Nat) (hnt : NoTermW s.workers) :
    (c ≤ countIdle s.workers ∧ (s.try_close c).workers.length = s.workers.length - c) ∨
    (countIdle s.workers ≤ c ∧
      (s.try_close c).workers = s.workers.filter (fun w => !w.is_idle)) := by
  rcases Nat.le_total c (countIdle s.workers) with h | h
  · exact Or.inl ⟨h, (tryClose_count s.workers c hnt).1 h⟩
  · exact Or.inr ⟨h, (tryClose_count s.workers c hnt).2 h⟩

theorem try_close_id (s : ScanMaster) (c : Nat) (hnt : NoTermW s.workers)
    (hno : ∀ w ∈ s.workers, ¬ w.is_idle = true) : s.try_close c = s := by
  unfold ScanMaster.try_close
  rw [tryCloseAux_no_idle c s.workers hno, threadsClean_eq_self _ hnt]

theorem config_update_thread_count (c : ScannerConfig) (n : Nat) (h : c.thread_count = n) :
    { c with thread_count := n } = c := by
  cases c
  subst h
  rfl

/-- Reconciling the thread count is idempotent: a second
`thread_count_control` right after a successful one returns its state
unchanged. -/
theorem tcc_idem (t t1 : ScanMaster) (hnt : NoTermW t.workers)
    (h : t.thread_count_control = .ok t1) :
    t1.thread_count_control = .ok t1 := by
  have hcfg : t1.config = t.config := tcc_config _ _ h
  unfold ScanMaster.thread_count_control at h ⊢
  simp only [] at h ⊢
  rw [hcfg]
  split at h
  · next hlt =>
    have hlen : t1.workers.length = t.config.thread_count := by
      rw [assign_work_len _ _ h, spawnN_len]
      omega
    rw [hlen, if_neg (lt_irrefl _), if_neg (lt_irrefl _)]
  · split at h
    · next hgt =>
      simp only [Except.ok.injEq] at h
      obtain rfl := h
      rcases try_close_cases t (t.workers.length - t.config.thread_count) hnt with
        ⟨hle, hlen⟩ | ⟨hge, heq⟩
      · have hlen' : (t.try_close (t.workers.length - t.config.thread_count)).workers.length =
            t.config.thread_count := by
          rw [hlen]
          omega
        rw [hlen', if_neg (lt_irrefl _), if_neg (lt_irrefl _)]
      · have hnoidle : ∀ w ∈ (t.try_close (t.workers.length - t.config.thread_count)).workers,
            ¬ w.is_idle = true := by
          rw [heq]
          intro w hw
          have hp := List.of_mem_filter hw
          cases hb : w.is_idle with
          | true => rw [hb] at hp; exact absurd hp (by simp)
          | false => simp [hb]
        have hnt1 : NoTermW (t.try_close (t.workers.length - t.config.thread_count)).workers :=
          threadsClean_noterm _
        have hlen1 : (t.try_close (t.workers.length - t.config.thread_count)).workers.length =
            t.workers.length - countIdle t.workers := by
          rw [heq, filter_not_idle_length]
        have hge2 : t.config.thread_count ≤
            (t.try_close (t.workers.length - t.config.thread_count)).workers.length := by
          rw [hlen1]
          omega
        rw [if_neg (Nat.not_lt.mpr hge2)]
        by_cases heq2 : t.config.thread_count <
            (t.try_close (t.workers.length - t.config.thread_count)).workers.length
        · rw [if_pos heq2, try_close_id _ _ hnt1 hnoidle]
        · rw [if_neg heq2]
    · next hngt =>
      simp only [Except.ok.injEq] at h
      obtain rfl := h
      next hnlt =>
        rw [if_neg hnlt, if_neg hngt]

/-- C8: from every reachable supervisor state, processing `Threads(n)` twice
in immediate succession leaves the supervisor (configuration, worker list,
queue, state) exactly as processing it once: the second application returns
the same state, a no-op apart from its acknowledgement. -/
theorem threads_idempotent (s : ScanMaster) (n : Nat) (hr : Reaches s)
    (s1 : ScanMaster) (out1 : List Output)
    (h1 : s.handle_input (.Threads n) = .ok (s1, out1)) :
    ∃ out2, s1.handle_input (.Threads n) = .ok (s1, out2) := by
  have hnt : NoTermW s.workers := (reaches_winv s hr).2.2
  unfold ScanMaster.handle_input at h1
  split at h1
  · next hg =>
    simp only [Except.ok.injEq, Prod.mk.injEq] at h1
    obtain ⟨rfl, rfl⟩ := h1
    refine ⟨[], ?_⟩
    unfold ScanMaster.handle_input
    rw [if_pos hg]
  · next hg =>
    cases ha : s.apply_input (.Threads n) with
    | error e => rw [ha] at h1; simp at h1
    | ok sm =>
      rw [ha] at h1
      simp only [Except.ok.injEq, Prod.mk.injEq] at h1
      obtain ⟨h1a, rfl⟩ := h1
      obtain rfl := h1a.symm
      simp only [ScanMaster.apply_input] at ha
      have hstate : s1.state = s.state :=
        tcc_state { s with config := { s.config with thread_count := n } } s1 ha
      have hguard2 : ¬ (s1.state = ScannerState.Ending ∨ s1.state = ScannerState.Terminated) := by
        rw [hstate]
        exact hg
      have hnt' : NoTermW
          ({ s with config := { s.config with thread_count := n } } : ScanMaster).workers := hnt
      have hidem : s1.thread_count_control = .ok s1 := tcc_idem _ _ hnt' ha
      refine ⟨[Output.Ok], ?_⟩
      unfold ScanMaster.handle_input
      rw [if_neg hguard2]
      have htc : s1.config.thread_count = n := by
        rw [tcc_config _ _ ha]
      have happ2 : s1.apply_input (.Threads n) = .ok s1 := by
        simp only [ScanMaster.apply_input]
        rw [config_update_thread_count s1.config n htc]
        exact hidem
      rw [happ2]

/-- Witness for `threads_idempotent`: `Threads(1)` on a fresh scanner (which
already has one worker) is a no-op both times. -/
theorem threads_idempotent_witness :
    ∃ out2, initListen.handle_input (.Threads 1) = .ok (initListen, out2) :=
  threads_idempotent initListen 1 (Reaches.init initListen rfl) initListen [Output.Ok] rfl

/-! ## Builder (crates/libportsqan/src/lib.rs, claim C10) -/

/-- ScannerBuilder, from crates/libportsqan/src/lib.rs: optional configuration
overrides and the pre-queued scans (host, from, to, is-tcp). -/
structure ScannerBuilder where
  thread_count : Option Nat
  tcp_timeout : Option Nat
  udp_timeout : Option Nat
  attemps : Option Nat
  stale : Option Bool
  scans : List (String × Nat × Nat × Bool)
deriving Repr, DecidableEq

/-- The commands `ScannerBuilder::config` submits, in the order of its
`if let Some` chain. -/
def ScannerBuilder.config_cmds (b : ScannerBuilder) : List Input :=
  (match b.attemps with | some val => [Input.Attmpts val] | none => []) ++
  (match b.stale with | some val => [Input.Stale val] | none => []) ++
  (match b.thread_count with | some val => [Input.Threads val] | none => []) ++
  (match b.tcp_timeout with | some val => [Input.TcpTimeout val] | none => []) ++
  (match b.udp_timeout with | some val => [Input.UdpTimeout val] | none => [])

/-- The commands `ScannerBuilder::enqueue_jobs` submits: one range command per
pre-queued scan, in insertion order. -/
def ScannerBuilder.enqueue_cmds (b : ScannerBuilder) : List Input :=
  b.scans.map (fun sc =>
    if sc.2.2.2 then Input.TcpRange sc.1 sc.2.1 sc.2.2.1 else Input.UdpRange sc.1 sc.2.1 sc.2.2.1)

/-- The command sequence `ScannerBuilder::build` submits after constructing
the scanner: `config` then `enqueue_jobs`. -/
def ScannerBuilder.build_cmds (b : ScannerBuilder) : List Input :=
  b.config_cmds ++ b.enqueue_cmds

/-- The spec's description of the build order (§4.6): the accumulated
commands in the fixed order (Attempts, Stale, Threads, TcpTimeout,
UdpTimeout) — each present exactly when its option is set — followed by the
enqueued ranges in insertion order.  Stated independently of `build_cmds` to
compare the two. -/
def specBuildCmds (b : ScannerBuilder) : List Input :=
  b.attemps.toList.map Input.Attmpts ++
  b.stale.toList.map Input.Stale ++
  b.thread_count.toList.map Input.Threads ++
  b.tcp_timeout.toList.map Input.TcpTimeout ++
  b.udp_timeout.toList.map Input.UdpTimeout ++
  b.scans.map (fun sc =>
    if sc.2.2.2 then Input.TcpRange sc.1 sc.2.1 sc.2.2.1 else Input.UdpRange sc.1 sc.2.1 sc.2.2.1)

/-- The collect loop of `ScannerBuilder::run`: receive outputs until the
first `Idle` (which is dropped); `rx.recv().unwrap()` panics (`.error ()`)
when the stream ends without an `Idle`. -/
def run_collect : List Output → Except Unit (List Output)
  | [] => .error ()
  | o :: rest =>
    if o = Output.Idle then .ok []
    else
      match run_collect rest with
      | .error e => .error e
      | .ok l => .ok (o :: l)

/-- C10: `build` issues the accumulated optional configuration commands in
the fixed order Attempts, Stale, Threads, TcpTimeout, UdpTimeout, followed by
the pre-queued ranges in insertion order; and `run` collects the callback
outputs up to the first `Idle`, returning them with the `Idle` itself not
included (the collected prefix is exactly the Idle-free prefix of the output
stream). -/
theorem builder_order_run_collect :
    (∀ b : ScannerBuilder, b.build_cmds = specBuildCmds b) ∧
    (∀ (outs l : List Output), run_collect outs = .ok l →
      Output.Idle ∉ l ∧ ∃ rest, outs = l ++ Output.Idle :: rest) := by
  constructor
  · intro b
    obtain ⟨tc, tt, ut, at_, st, sc⟩ := b
    unfold ScannerBuilder.build_cmds ScannerBuilder.config_cmds ScannerBuilder.enqueue_cmds
      specBuildCmds
    cases at_ <;> cases st <;> cases tc <;> cases tt <;> cases ut <;>
      simp [Option.toList]
  · intro outs
    induction outs with
    | nil => intro l h; simp [run_collect] at h
    | cons o rest ih =>
      intro l h
      unfold run_collect at h
      split at h
      · next ho =>
        simp only [Except.ok.injEq] at h
        obtain rfl := h
        refine ⟨by simp, ⟨rest, ?_⟩⟩
        rw [ho]
        rfl
      · next ho =>
        cases hr : run_collect rest with
        | error e => rw [hr] at h; simp at h
        | ok l' =>
          rw [hr] at h
          simp only [Except.ok.injEq] at h
          obtain rfl := h
          obtain ⟨hnot, rest', hrest⟩ := ih l' hr
          refine ⟨?_, ⟨rest', ?_⟩⟩
          · intro hmem
            rcases List.mem_cons.mp hmem with h1 | h1
            · exact ho h1.symm
            · exact hnot h1
          · rw [List.cons_append, hrest]

/-- Witness for `builder_order_run_collect`: a builder with attempts, stale,
tcp-timeout and one TCP range set, and an output stream ending in `Idle`. -/
theorem builder_order_run_collect_witness :
    (ScannerBuilder.build_cmds ⟨some 2, some 100, none, some 3, some true, [("h", 1, 4, true)]⟩ =
      specBuildCmds ⟨some 2, some 100, none, some 3, some true, [("h", 1, 4, true)]⟩) ∧
    (Output.Idle ∉ [Output.TcpScan "h" 1 PortState.Open] ∧
      ∃ rest, [Output.TcpScan "h" 1 PortState.Open, Output.Idle] =
        [Output.TcpScan "h" 1 PortState.Open] ++ Output.Idle :: rest) :=
  ⟨builder_order_run_collect.1 ⟨some 2, some 100, none, some 3, some true, [("h", 1, 4, true)]⟩,
   builder_order_run_collect.2 [Output.TcpScan "h" 1 PortState.Open, Output.Idle]
     [Output.TcpScan "h" 1 PortState.Open] rfl⟩

end Portsqan
